import Mathlib

/-!
Verification development for the humanizer repository (src/aichecker.py,
src/main.py).  The Python code is shallowly embedded: network calls are
replaced by explicit lists / functions describing the outcomes the code
would observe, and every fallible Python computation is modelled with
Except.  Scores are rationals (Python uses floats, but all the arithmetic
at issue -- sums, means, comparisons with 50 -- is exact on the inputs the
claims quantify over).
-/

namespace Humanizer

/-- Result returned by one detection provider, mirroring the dicts produced
by AIChecker.zerogpt / AIChecker.originality: either a failure sentinel
(status failed) or a success record carrying the provider name, the overall
score and the per-sentence (text, score) pairs. -/
inductive ProviderResult where
  | failed
  | success (provider : String) (score : ℚ) (sentences : List (String × ℚ))
deriving DecidableEq, Repr

/-- Aggregate returned by AIChecker.check_async (the dict built at
src/aichecker.py lines 40-45). -/
structure AggregateResult where
  score : ℚ
  fake_sentences : List String
  text : String
  providers : List String
deriving DecidableEq, Repr

/-- Accumulator built by the result loop of check_async
(src/aichecker.py lines 16-32): the scores list, the sentence_scores dict
(a Python dict preserving key insertion order, modelled as an association
list) and the providers list. -/
structure CheckAcc where
  scores : List ℚ
  sentence_scores : List (String × List ℚ)
  providers : List String
deriving DecidableEq, Repr

/-- One step of `sentence_scores[sentence_text].append(sentence_score)`
preceded by the `if sentence_text not in sentence_scores` initialisation
(src/aichecker.py lines 30-32): append to the entry of an existing key,
otherwise insert a new key at the end (Python dict insertion order). -/
def addScore : List (String × List ℚ) → String → ℚ → List (String × List ℚ)
  | [], t, s => [(t, [s])]
  | (t₀, l₀) :: rest, t, s =>
    if t₀ = t then (t₀, l₀ ++ [s]) :: rest
    else (t₀, l₀) :: addScore rest t s

/-- The inner `for s in r["sentences"]` loop of check_async
(src/aichecker.py lines 26-32). -/
def addSentences (m : List (String × List ℚ)) (sents : List (String × ℚ)) :
    List (String × List ℚ) :=
  sents.foldl (fun acc s => addScore acc s.1 s.2) m

/-- The body of `for r in results` in check_async (src/aichecker.py
lines 20-32): failed results are skipped, successful ones contribute their
provider name, overall score and sentence scores. -/
def processResult (acc : CheckAcc) : ProviderResult → CheckAcc
  | .failed => acc
  | .success p sc sents =>
    ⟨acc.scores ++ [sc], addSentences acc.sentence_scores sents,
      acc.providers ++ [p]⟩

/-- The fake-sentence selection loop of check_async (src/aichecker.py
lines 34-38): keep, in dict order, every sentence text whose average score
is strictly greater than 50. -/
def fakeSentencesOf (m : List (String × List ℚ)) : List String :=
  (m.filter (fun p => decide (50 < p.2.sum / (p.2.length : ℚ)))).map Prod.fst

/-- The fake_sentences list computed by check_async for a given list of
provider results. -/
def fake_sentences (results : List ProviderResult) : List String :=
  fakeSentencesOf (results.foldl processResult ⟨[], [], []⟩).sentence_scores

/-- AIChecker.check_async (src/aichecker.py lines 14-45), as a function of
the provider results that the asyncio.gather call returned.  The returned
dict computes `sum(scores) / len(scores)`; when no provider succeeded the
scores list is empty and Python raises ZeroDivisionError, modelled as an
Except.error carrying the Python error message. -/
def check_async (text : String) (results : List ProviderResult) :
    Except String AggregateResult :=
  let acc := results.foldl processResult ⟨[], [], []⟩
  let fake := fakeSentencesOf acc.sentence_scores
  if acc.scores.isEmpty then .error "division by zero"
  else .ok ⟨acc.scores.sum / (acc.scores.length : ℚ), fake, text, acc.providers⟩

/-- All provider scores recorded for segment text t, in provider order then
sentence order: the reference reading of the merge rule of the spec. -/
def providerScoresFor (t : String) : ProviderResult → List ℚ
  | .failed => []
  | .success _ _ sents => (sents.filter (fun s => decide (s.1 = t))).map Prod.snd

/-- Scores for segment text t across a full result list. -/
def scoresFor (t : String) (results : List ProviderResult) : List ℚ :=
  (results.map (providerScoresFor t)).flatten

/-- Lookup of the score list recorded for key t in the sentence_scores
association list. -/
def lookupScores : List (String × List ℚ) → String → List ℚ
  | [], _ => []
  | (t₀, l) :: rest, t => if t₀ = t then l else lookupScores rest t

lemma foldl_processResult_all_failed (results : List ProviderResult)
    (h : ∀ r ∈ results, r = .failed) (acc : CheckAcc) :
    results.foldl processResult acc = acc := by
  induction results generalizing acc with
  | nil => rfl
  | cons r rest ih =>
    have hr : r = .failed := h r (List.mem_cons_self ..)
    subst hr
    simpa [processResult] using ih (fun x hx => h x (List.mem_cons_of_mem _ hx)) acc

/-- C1: the claim says check_async returns an explicit empty aggregate when
every provider failed and never raises a division fault.  The code does the
opposite: with every provider failed the scores list is empty and
`sum(scores) / len(scores)` raises ZeroDivisionError (modelled as the
Except.error result).  The spec states the intended invariant explicitly,
so this is a bug in the code. -/
theorem check_async_all_failed_divides_by_zero (text : String)
    (results : List ProviderResult) (h : ∀ r ∈ results, r = .failed) :
    check_async text results = .error "division by zero" := by
  unfold check_async
  rw [foldl_processResult_all_failed results h]
  rfl

/-- Witness for C1: the single registered provider (zerogpt) reports
status failed and check_async raises the division fault. -/
theorem check_async_all_failed_witness :
    check_async "essay" [ProviderResult.failed] = .error "division by zero" :=
  check_async_all_failed_divides_by_zero "essay" [ProviderResult.failed]
    (by intro r hr; simpa using hr)

lemma lookup_addScore_self (m : List (String × List ℚ)) (t : String) (s : ℚ) :
    lookupScores (addScore m t s) t = lookupScores m t ++ [s] := by
  induction m with
  | nil => simp [addScore, lookupScores]
  | cons p rest ih =>
    obtain ⟨t₀, l₀⟩ := p
    by_cases h : t₀ = t
    · simp [addScore, lookupScores, h]
    · simp [addScore, lookupScores, h, ih]

lemma lookup_addScore_ne (m : List (String × List ℚ)) {t t' : String} (s : ℚ)
    (h : t ≠ t') : lookupScores (addScore m t s) t' = lookupScores m t' := by
  induction m with
  | nil => simp [addScore, lookupScores, h]
  | cons p rest ih =>
    obtain ⟨t₀, l₀⟩ := p
    by_cases h₀ : t₀ = t
    · subst h₀; simp [addScore, lookupScores, h]
    · simp [addScore, lookupScores, h₀, ih]

lemma lookup_addSentences (m : List (String × List ℚ))
    (sents : List (String × ℚ)) (t : String) :
    lookupScores (addSentences m sents) t
      = lookupScores m t ++ (sents.filter (fun s => decide (s.1 = t))).map Prod.snd := by
  induction sents generalizing m with
  | nil => simp [addSentences]
  | cons s rest ih =>
    show lookupScores (addSentences (addScore m s.1 s.2) rest) t = _
    rw [ih]
    by_cases h : s.1 = t
    · subst h
      rw [lookup_addScore_self]
      simp [List.filter_cons]
    · rw [lookup_addScore_ne m s.2 h]
      simp [List.filter_cons, h]

lemma lookup_foldl (results : List ProviderResult) (acc : CheckAcc) (t : String) :
    lookupScores ((results.foldl processResult acc).sentence_scores) t
      = lookupScores acc.sentence_scores t ++ scoresFor t results := by
  induction results generalizing acc with
  | nil => simp [scoresFor]
  | cons r rest ih =>
    show lookupScores ((rest.foldl processResult (processResult acc r)).sentence_scores) t = _
    rw [ih]
    cases r with
    | failed => simp [processResult, scoresFor, providerScoresFor]
    | success p sc sents =>
      simp only [processResult]
      rw [lookup_addSentences]
      simp [scoresFor, providerScoresFor, List.append_assoc]

lemma keys_addScore (m : List (String × List ℚ)) (t : String) (s : ℚ) :
    (addScore m t s).map Prod.fst
      = if t ∈ m.map Prod.fst then m.map Prod.fst else m.map Prod.fst ++ [t] := by
  induction m with
  | nil => simp [addScore]
  | cons p rest ih =>
    obtain ⟨t₀, l₀⟩ := p
    by_cases h : t₀ = t
    · subst h; simp [addScore]
    · have hne : ¬ t = t₀ := fun he => h he.symm
      by_cases hm : t ∈ rest.map Prod.fst
      · simp [addScore, h, ih, hm, List.mem_cons, hne]
      · simp [addScore, h, ih, hm, List.mem_cons, hne]

lemma keysNodup_addScore {m : List (String × List ℚ)} (t : String) (s : ℚ)
    (hn : (m.map Prod.fst).Nodup) : ((addScore m t s).map Prod.fst).Nodup := by
  rw [keys_addScore]
  by_cases hm : t ∈ m.map Prod.fst
  · simpa [hm] using hn
  · simp [hm, List.nodup_append, hn, List.disjoint_singleton]

lemma keysNodup_addSentences {m : List (String × List ℚ)}
    (sents : List (String × ℚ)) (hn : (m.map Prod.fst).Nodup) :
    ((addSentences m sents).map Prod.fst).Nodup := by
  induction sents generalizing m with
  | nil => simpa [addSentences] using hn
  | cons s rest ih =>
    show ((addSentences (addScore m s.1 s.2) rest).map Prod.fst).Nodup
    exact ih (keysNodup_addScore s.1 s.2 hn)

lemma keysNodup_foldl (results : List ProviderResult) (acc : CheckAcc)
    (hn : (acc.sentence_scores.map Prod.fst).Nodup) :
    (((results.foldl processResult acc).sentence_scores).map Prod.fst).Nodup := by
  induction results generalizing acc with
  | nil => simpa using hn
  | cons r rest ih =>
    show (((rest.foldl processResult (processResult acc r)).sentence_scores).map Prod.fst).Nodup
    cases r with
    | failed => exact ih acc hn
    | success p sc sents => exact ih _ (keysNodup_addSentences sents hn)

lemma lookup_mem : ∀ (m : List (String × List ℚ)) (t : String) (l : List ℚ),
    lookupScores m t = l → l ≠ [] → (t, l) ∈ m := by
  intro m
  induction m with
  | nil => intro t l h hne; exact absurd h.symm hne
  | cons p rest ih =>
    intro t l h hne
    obtain ⟨t₀, l₀⟩ := p
    by_cases he : t₀ = t
    · subst he
      simp only [lookupScores, if_pos rfl] at h
      subst h
      exact List.mem_cons_self ..
    · simp only [lookupScores, if_neg he] at h
      exact List.mem_cons_of_mem _ (ih t l h hne)

lemma mem_lookup {m : List (String × List ℚ)} (hn : (m.map Prod.fst).Nodup)
    {t : String} {l : List ℚ} (h : (t, l) ∈ m) : lookupScores m t = l := by
  induction m with
  | nil => simp at h
  | cons p rest ih =>
    obtain ⟨t₀, l₀⟩ := p
    simp only [List.map_cons, List.nodup_cons] at hn
    rcases List.mem_cons.mp h with he | hm
    · injection he with h1 h2
      subst h1; subst h2
      simp [lookupScores]
    · have ht : ¬ t₀ = t := by
        intro he
        subst he
        exact hn.1 (List.mem_map.mpr ⟨(t₀, l), hm, rfl⟩)
      simp only [lookupScores, if_neg ht]
      exact ih hn.2 hm

lemma mem_fakeSentencesOf {m : List (String × List ℚ)}
    (hn : (m.map Prod.fst).Nodup) (t : String) :
    t ∈ fakeSentencesOf m ↔
      lookupScores m t ≠ [] ∧
        50 < (lookupScores m t).sum / ((lookupScores m t).length : ℚ) := by
  unfold fakeSentencesOf
  constructor
  · intro ht
    obtain ⟨p, hp, hpt⟩ := List.mem_map.mp ht
    obtain ⟨hpm, hpred⟩ := List.mem_filter.mp hp
    have hpred' : 50 < p.2.sum / (p.2.length : ℚ) := of_decide_eq_true hpred
    have hne : p.2 ≠ [] := by
      intro he
      rw [he] at hpred'
      norm_num at hpred'
    have hpair : (t, p.2) ∈ m := by
      have : (t, p.2) = p := by
        rw [← hpt]
      rw [this]
      exact hpm
    have hl : lookupScores m t = p.2 := mem_lookup hn hpair
    rw [hl]
    exact ⟨hne, hpred'⟩
  · rintro ⟨hne, hlt⟩
    have hmem : (t, lookupScores m t) ∈ m := lookup_mem m t _ rfl hne
    refine List.mem_map.mpr ⟨(t, lookupScores m t), List.mem_filter.mpr ⟨hmem, ?_⟩, rfl⟩
    exact decide_eq_true hlt

/-- C3: in check_async, a segment text is flagged (appears in
fake_sentences) exactly when the arithmetic mean of its scores, grouped
across the successful providers by exact text equality, is strictly
greater than 50. -/
theorem check_async_flagged_iff (text : String) (results : List ProviderResult)
    (agg : AggregateResult) (t : String) (h : check_async text results = .ok agg) :
    t ∈ agg.fake_sentences ↔
      scoresFor t results ≠ [] ∧
        50 < (scoresFor t results).sum / ((scoresFor t results).length : ℚ) := by
  simp only [check_async] at h
  split at h
  · exact absurd h (by simp)
  · injection h with h'
    subst h'
    have hn : (((results.foldl processResult ⟨[], [], []⟩).sentence_scores).map Prod.fst).Nodup :=
      keysNodup_foldl results ⟨[], [], []⟩ (by simp)
    rw [show (AggregateResult.mk _ (fakeSentencesOf (results.foldl processResult ⟨[], [], []⟩).sentence_scores) text _).fake_sentences
          = fakeSentencesOf (results.foldl processResult ⟨[], [], []⟩).sentence_scores from rfl]
    rw [mem_fakeSentencesOf hn t, lookup_foldl results ⟨[], [], []⟩ t]
    simp [lookupScores]

/-- Concrete provider results for the C3 boundary case: two providers
report the identical segment text with scores 80 and 20. -/
def resultsC3 : List ProviderResult :=
  [.success "p1" 80 [("s", 80)], .success "p2" 20 [("s", 20)]]

/-- Aggregate computed by check_async on resultsC3: mean overall score 50
and, since the merged segment mean is exactly 50, no flagged segment. -/
def aggC3 : AggregateResult := ⟨50, [], "t", ["p1", "p2"]⟩

/-- Witness for C3: with segment scores 80 and 20 the merged mean is
exactly 50 and the segment is not flagged. -/
theorem check_async_flagged_iff_witness :
    check_async "t" resultsC3 = .ok aggC3 ∧ "s" ∉ aggC3.fake_sentences := by
  have hok : check_async "t" resultsC3 = .ok aggC3 := by
    unfold check_async resultsC3 aggC3
    norm_num [processResult, addSentences, addScore, fakeSentencesOf, List.filter]
  refine ⟨hok, ?_⟩
  intro hmem
  have h := (check_async_flagged_iff "t" resultsC3 aggC3 "s" hok).mp hmem
  have hs : scoresFor "s" resultsC3 = [80, 20] := by rfl
  rw [hs] at h
  norm_num at h

/-- The exception scan of batch_requests (src/main.py lines 51-54): the
first entry of a gathered chunk that is an exception, in index order. -/
def firstError {ε α : Type} : List (Except ε α) → Option ε
  | [] => none
  | .error e :: _ => some e
  | .ok _ :: rest => firstError rest

/-- The successful values of a gathered chunk, in order. -/
def okValues {ε α : Type} (l : List (Except ε α)) : List α :=
  l.filterMap Except.toOption

/-- Observable trace of one batch_requests call: the returned results (or
the propagated exception), the number of chunks whose gather was started
and the number of inter-chunk pacing delays awaited. -/
structure BatchTrace (ε α : Type) where
  result : Except ε (List α)
  chunksStarted : Nat
  delays : Nat
deriving Repr

/-- The chunk loop of batch_requests (src/main.py lines 45-63): each chunk
is gathered; if it contains an exception the first one is re-raised and
nothing further runs; otherwise its results are appended and, when tasks
remain after the chunk, a pacing delay is awaited before the next chunk. -/
def runChunks {ε α : Type} : List (List (Except ε α)) → BatchTrace ε α
  | [] => ⟨.ok [], 0, 0⟩
  | c :: rest =>
    match firstError c with
    | some e => ⟨.error e, 1, 0⟩
    | none =>
      match rest with
      | [] => ⟨.ok (okValues c), 1, 0⟩
      | r :: rs =>
        let t := runChunks (r :: rs)
        ⟨t.result.map (fun l => okValues c ++ l), t.chunksStarted + 1, t.delays + 1⟩

/-- Fuel-indexed slicing of `tasks[i : i + batch_size]` over the range
`range(0, len(tasks), batch_size)` (src/main.py line 45); the fuel is an
upper bound on the number of chunks, instantiated with the list length. -/
def chunksGo (bs : Nat) : Nat → List α → List (List α)
  | 0, _ => []
  | _ + 1, [] => []
  | fuel + 1, x :: xs => (x :: xs).take bs :: chunksGo bs fuel ((x :: xs).drop bs)

/-- The consecutive `batch_size`-sized slices of a task list. -/
def chunksOf (bs : Nat) (l : List α) : List (List α) :=
  chunksGo bs l.length l

/-- batch_requests (src/main.py lines 43-64) as a function of the outcome
each task would produce, returning the observable trace. -/
def batch_requests {ε α : Type} (tasks : List (Except ε α)) (batch_size : Nat) :
    BatchTrace ε α :=
  runChunks (chunksOf batch_size tasks)

lemma chunksGo_eq {α : Type} (bs : Nat) (hbs : 1 ≤ bs) :
    ∀ fuel₁ fuel₂ (l : List α), l.length ≤ fuel₁ → l.length ≤ fuel₂ →
      chunksGo bs fuel₁ l = chunksGo bs fuel₂ l := by
  intro fuel₁
  induction fuel₁ with
  | zero =>
    intro fuel₂ l h1 h2
    have : l = [] := List.eq_nil_of_length_eq_zero (Nat.le_zero.mp h1)
    subst this
    cases fuel₂ <;> rfl
  | succ f ih =>
    intro fuel₂ l h1 h2
    cases l with
    | nil => cases fuel₂ <;> rfl
    | cons x xs =>
      cases fuel₂ with
      | zero => simp at h2
      | succ f₂ =>
        show (x :: xs).take bs :: chunksGo bs f ((x :: xs).drop bs)
          = (x :: xs).take bs :: chunksGo bs f₂ ((x :: xs).drop bs)
        congr 1
        apply ih
        · simp only [List.length_drop, List.length_cons]
          simp only [List.length_cons] at h1
          omega
        · simp only [List.length_drop, List.length_cons]
          simp only [List.length_cons] at h2
          omega

lemma chunksOf_cons {α : Type} (bs : Nat) (hbs : 1 ≤ bs) (x : α) (xs : List α) :
    chunksOf bs (x :: xs) = (x :: xs).take bs :: chunksOf bs ((x :: xs).drop bs) := by
  show chunksGo bs (xs.length + 1) (x :: xs) = _
  rw [show chunksGo bs (xs.length + 1) (x :: xs)
      = (x :: xs).take bs :: chunksGo bs xs.length ((x :: xs).drop bs) from rfl]
  congr 1
  apply chunksGo_eq bs hbs
  · simp only [List.length_drop, List.length_cons]; omega
  · exact Nat.le_refl _

lemma chunksOf_flatten {α : Type} (bs : Nat) (hbs : 1 ≤ bs) :
    ∀ (n : Nat) (l : List α), l.length ≤ n → (chunksOf bs l).flatten = l := by
  intro n
  induction n with
  | zero =>
    intro l h
    have : l = [] := List.eq_nil_of_length_eq_zero (Nat.le_zero.mp h)
    subst this; rfl
  | succ n ih =>
    intro l h
    cases l with
    | nil => rfl
    | cons x xs =>
      rw [chunksOf_cons bs hbs, List.flatten_cons, ih ((x :: xs).drop bs) ?_]
      · exact List.take_append_drop bs (x :: xs)
      · simp only [List.length_drop, List.length_cons]
        simp only [List.length_cons] at h
        omega

lemma chunksOf_length {α : Type} (bs : Nat) (hbs : 1 ≤ bs) :
    ∀ (n : Nat) (l : List α), l.length ≤ n → l ≠ [] →
      (chunksOf bs l).length = (l.length - 1) / bs + 1 := by
  intro n
  induction n with
  | zero =>
    intro l h hne
    exact absurd (List.eq_nil_of_length_eq_zero (Nat.le_zero.mp h)) hne
  | succ n ih =>
    intro l h hne
    cases l with
    | nil => exact absurd rfl hne
    | cons x xs =>
      rw [chunksOf_cons bs hbs, List.length_cons]
      by_cases hd : (x :: xs).drop bs = []
      · have hlen : xs.length + 1 ≤ bs := by
          have := congrArg List.length hd
          simp only [List.length_drop, List.length_cons, List.length_nil] at this
          omega
        rw [hd]
        show (chunksOf bs ([] : List α)).length + 1 = (xs.length + 1 - 1) / bs + 1
        simp [chunksOf, chunksGo, Nat.div_eq_of_lt (by omega : xs.length < bs)]
      · have hbslen : bs ≤ xs.length := by
          by_contra hc
          exact hd (List.drop_eq_nil_of_le (by simp; omega))
        rw [ih ((x :: xs).drop bs) ?_ hd]
        · simp only [List.length_drop, List.length_cons]
          have he : xs.length + 1 - bs - 1 = xs.length - bs := by omega
          rw [he]
          have he2 : xs.length + 1 - 1 = xs.length - bs + bs := by omega
          rw [he2, Nat.add_div_right _ (by omega : 0 < bs)]
        · simp only [List.length_drop, List.length_cons]
          simp only [List.length_cons] at h
          omega

lemma firstError_none_of_all_ok {ε α : Type} (c : List (Except ε α))
    (h : ∀ x ∈ c, ∃ v, x = .ok v) : firstError c = none := by
  induction c with
  | nil => rfl
  | cons x rest ih =>
    obtain ⟨v, hv⟩ := h x (List.mem_cons_self ..)
    subst hv
    exact ih (fun y hy => h y (List.mem_cons_of_mem _ hy))

lemma runChunks_cons_err {ε α : Type} (c : List (Except ε α))
    (rest : List (List (Except ε α))) (e : ε) (hc : firstError c = some e) :
    runChunks (c :: rest) = ⟨.error e, 1, 0⟩ := by
  cases rest <;> simp only [runChunks, hc]

lemma runChunks_single_ok {ε α : Type} (c : List (Except ε α))
    (hc : firstError c = none) : runChunks [c] = ⟨.ok (okValues c), 1, 0⟩ := by
  simp only [runChunks, hc]

lemma runChunks_cons_ok {ε α : Type} (c : List (Except ε α)) (r : List (Except ε α))
    (rs : List (List (Except ε α))) (hc : firstError c = none) :
    runChunks (c :: r :: rs) =
      ⟨(runChunks (r :: rs)).result.map (fun l => okValues c ++ l),
        (runChunks (r :: rs)).chunksStarted + 1, (runChunks (r :: rs)).delays + 1⟩ := by
  simp only [runChunks, hc]

lemma runChunks_all_ok {ε α : Type} (cl : List (List (Except ε α)))
    (hne : cl ≠ []) (h : ∀ c ∈ cl, firstError c = none) :
    runChunks cl = ⟨.ok (okValues cl.flatten), cl.length, cl.length - 1⟩ := by
  induction cl with
  | nil => exact absurd rfl hne
  | cons c rest ih =>
    have hc : firstError c = none := h c (List.mem_cons_self ..)
    cases rest with
    | nil =>
      rw [runChunks_single_ok c hc]
      simp [okValues]
    | cons r rs =>
      have ih' := ih (by simp) (fun x hx => h x (List.mem_cons_of_mem _ hx))
      rw [runChunks_cons_ok c r rs hc, ih']
      simp [okValues, List.filterMap_append, Except.map]

lemma runChunks_fail {ε α : Type} (pre : List (List (Except ε α)))
    (c : List (Except ε α)) (post : List (List (Except ε α))) (e : ε)
    (hpre : ∀ x ∈ pre, firstError x = none) (hc : firstError c = some e) :
    runChunks (pre ++ c :: post) = ⟨.error e, pre.length + 1, pre.length⟩ := by
  induction pre with
  | nil => simpa using runChunks_cons_err c post e hc
  | cons p pre' ih =>
    have hp : firstError p = none := hpre p (List.mem_cons_self ..)
    have ih' := ih (fun x hx => hpre x (List.mem_cons_of_mem _ hx))
    rw [List.cons_append]
    cases hrest : pre' ++ c :: post with
    | nil => exact absurd hrest (by simp)
    | cons q qs =>
      rw [runChunks_cons_ok p q qs hp, ← hrest, ih']
      simp [Except.map]

/-- C8: the first exception observed in a chunk aborts the whole dispatch,
is propagated to the caller, and no chunk after the failing one is ever
started: if the chunks split as pre ++ c :: post with every chunk of pre
exception-free and e the first exception of c, the call returns error e
after starting exactly pre.length + 1 chunks (the chunks of post are never
started) and awaiting pre.length pacing delays. -/
theorem batch_requests_fail_fast {ε α : Type} (tasks : List (Except ε α))
    (bs : Nat) (pre : List (List (Except ε α))) (c : List (Except ε α))
    (post : List (List (Except ε α))) (e : ε)
    (hsplit : chunksOf bs tasks = pre ++ c :: post)
    (hpre : ∀ x ∈ pre, firstError x = none) (hc : firstError c = some e) :
    batch_requests tasks bs = ⟨.error e, pre.length + 1, pre.length⟩ := by
  unfold batch_requests
  rw [hsplit]
  exact runChunks_fail pre c post e hpre hc

/-- Witness for C8: with batch_size 1, the second chunk holds the failing
task; the error is propagated, the third chunk never starts, and one
pacing delay was awaited. -/
theorem batch_requests_fail_fast_witness :
    batch_requests [Except.ok 1, Except.error "boom", Except.ok 2] 1
      = ⟨Except.error "boom", 2, 1⟩ := by
  have h := batch_requests_fail_fast
    [Except.ok 1, Except.error "boom", (Except.ok 2 : Except String Nat)] 1
    [[Except.ok 1]] [Except.error "boom"] [[Except.ok 2]] "boom"
    rfl (by intro x hx; simp at hx; subst hx; rfl) rfl
  simpa using h

/-- C9: batch_requests splits the tasks into consecutive chunks of
batch_size, awaits the pacing delay only between chunks (never after the
last), and returns the results in the input order of the tasks: on an
all-successful nonempty task list of length n it returns exactly the task
values in order, starts ceil(n / batch_size) chunks and awaits one fewer
pacing delays. -/
theorem batch_requests_chunking {ε α : Type} (vals : List α) (bs : Nat)
    (hbs : 1 ≤ bs) (hne : vals ≠ []) :
    batch_requests (vals.map (Except.ok : α → Except ε α)) bs
      = ⟨.ok vals, (vals.length + bs - 1) / bs, (vals.length + bs - 1) / bs - 1⟩ := by
  have hlen : (vals.map (Except.ok : α → Except ε α)).length = vals.length := by
    simp
  have hflat : (chunksOf bs (vals.map (Except.ok : α → Except ε α))).flatten
      = vals.map Except.ok :=
    chunksOf_flatten bs hbs _ _ (Nat.le_refl _)
  have hok : ∀ c ∈ chunksOf bs (vals.map (Except.ok : α → Except ε α)),
      firstError c = none := by
    intro c hcmem
    apply firstError_none_of_all_ok
    intro x hx
    have hxt : x ∈ vals.map (Except.ok : α → Except ε α) := by
      rw [← hflat]
      exact List.mem_flatten.mpr ⟨c, hcmem, hx⟩
    obtain ⟨v, _, hv⟩ := List.mem_map.mp hxt
    exact ⟨v, hv.symm⟩
  have hcne : chunksOf bs (vals.map (Except.ok : α → Except ε α)) ≠ [] := by
    have h1 : vals.map (Except.ok : α → Except ε α) ≠ [] := by
      intro hm
      exact absurd (List.map_eq_nil_iff.mp hm) hne
    obtain ⟨x, xs, hxx⟩ := List.exists_cons_of_ne_nil h1
    rw [hxx, chunksOf_cons bs hbs]
    exact List.cons_ne_nil _ _
  have hcl : (chunksOf bs (vals.map (Except.ok : α → Except ε α))).length
      = (vals.length - 1) / bs + 1 := by
    rw [chunksOf_length bs hbs _ _ (Nat.le_refl _) ?_, hlen]
    intro hmapnil
    exact absurd (List.map_eq_nil_iff.mp hmapnil) hne
  have hceil : (vals.length + bs - 1) / bs = (vals.length - 1) / bs + 1 := by
    have h1 : 1 ≤ vals.length := List.length_pos.mpr hne
    have he : vals.length + bs - 1 = (vals.length - 1) + bs := by omega
    rw [he, Nat.add_div_right _ (by omega : 0 < bs)]
  unfold batch_requests
  rw [runChunks_all_ok _ hcne hok, hflat, hcl, hceil]
  have hvals : okValues (vals.map (Except.ok : α → Except ε α)) = vals := by
    unfold okValues
    rw [List.filterMap_map]
    have : (Except.toOption ∘ (Except.ok : α → Except ε α)) = some := by
      funext v; rfl
    rw [this, List.filterMap_some]
  rw [hvals]

/-- Witness for C9: 120 all-successful tasks with batch_size 50 give the
120 results in order, exactly 3 chunks and exactly 2 pacing delays. -/
theorem batch_requests_chunking_witness :
    batch_requests ((List.range 120).map (Except.ok : Nat → Except String Nat)) 50
      = ⟨.ok (List.range 120), 3, 2⟩ := by
  have h := batch_requests_chunking (ε := String) (List.range 120) 50
    (by norm_num) (by simp)
  rw [List.length_range] at h
  norm_num at h
  exact h

/-- C10: batch_requests on an empty task sequence returns an empty result
list, starts no chunk, awaits no pacing delay and propagates no
exception. -/
theorem batch_requests_empty :
    batch_requests ([] : List (Except String Nat)) 50 = ⟨.ok [], 0, 0⟩ := rfl

/-- Number of candidates per round (src/main.py line 9). -/
def CHOICES : Nat := 7

/-- Rollback limit (src/main.py line 10). -/
def MAX_ROLLBACKS : Nat := 3

/-- Target score (src/main.py line 11). -/
def TARGET_SCORE : ℚ := 30

/-- One entry of score_history (src/main.py lines 292-297). -/
structure RoundEntry where
  round : Nat
  best_candidate_score : ℚ
  accepted : Bool
  rolled_back : Bool
deriving DecidableEq, Repr

/-- The mutable state of the round loop in main (src/main.py lines
110-136): working text and score, flagged sentences, best-ever tracking,
rollback counter, failure narrative, round counter and score history. -/
structure SearchState where
  current_text : String
  previous_score : ℚ
  current_fake_sentences : List String
  best_ever_text : String
  best_ever_score : ℚ
  best_ever_round : Nat
  consecutive_rollbacks : Nat
  failure_history : String
  round_num : Nat
  score_history : List RoundEntry
deriving DecidableEq, Repr

/-- The failure_history f-string built on rollback (src/main.py lines
323-331), assembled from the same data as the source text. -/
def failureNarrative (round_num : Nat) (best_result : AggregateResult)
    (best_ever_score : ℚ) : String :=
  "IMPORTANT: Previous round " ++ toString round_num ++ " made things WORSE. "
    ++ "Attempted rewrites of " ++ toString best_result.fake_sentences.length
    ++ " sentences. Result: " ++ toString best_result.score
    ++ " percent (increased from " ++ toString best_ever_score ++ " percent). "
    ++ "New sentences got flagged that were not flagged before. "
    ++ "These rewrites FAILED and made detection worse. Learn from this. "
    ++ "DO NOT repeat similar patterns. Try fundamentally different approaches."

/-- Accumulator loop of Python `min(range(len(results)), key=...)`
(src/main.py line 270): scan the remaining scores, replacing the current
best index only on a strictly smaller score, so the first minimum wins. -/
def bestIdxGo : List ℚ → Nat → ℚ → Nat → Nat
  | [], bi, _, _ => bi
  | s :: rest, bi, bv, i =>
    if s < bv then bestIdxGo rest i s (i + 1) else bestIdxGo rest bi bv (i + 1)

/-- Index of the best (minimum-score) candidate, ties broken by lowest
index, as computed at src/main.py line 270. -/
def bestIdx : List ℚ → Nat
  | [] => 0
  | s :: rest => bestIdxGo rest 0 s 1

/-- Default aggregate used with List.getD where Python would index
directly (the hypotheses of the theorems keep the index in bounds). -/
def defaultAggregate : AggregateResult := ⟨0, [], "", []⟩

/-- The body of one executed round of main (src/main.py lines 264-343),
after the candidates have been generated: results are the aggregates the
candidate check returned (index-aligned with the candidate texts), and
recheck is the aggregate that the fresh re-evaluation of best_ever_text
returns in the rollback branch (line 319). -/
def roundStep (st : SearchState) (cands : List String)
    (results : List AggregateResult) (recheck : AggregateResult) : SearchState :=
  let scores := results.map AggregateResult.score
  let best_idx := bestIdx scores
  let best_result := results.getD best_idx defaultAggregate
  let best_text := cands.getD best_idx ""
  let entry : RoundEntry := ⟨st.round_num + 1, best_result.score,
    decide (best_result.score < st.best_ever_score),
    decide (st.best_ever_score ≤ best_result.score)⟩
  if best_result.score < st.best_ever_score then
    { st with
      best_ever_text := best_text,
      best_ever_score := best_result.score,
      best_ever_round := st.round_num + 1,
      consecutive_rollbacks := 0,
      failure_history := "",
      current_text := best_text,
      previous_score := best_result.score,
      current_fake_sentences := best_result.fake_sentences,
      round_num := st.round_num + 1,
      score_history := st.score_history ++ [entry] }
  else
    { st with
      consecutive_rollbacks := st.consecutive_rollbacks + 1,
      current_text := st.best_ever_text,
      previous_score := st.best_ever_score,
      current_fake_sentences := recheck.fake_sentences,
      failure_history := failureNarrative (st.round_num + 1) best_result st.best_ever_score,
      round_num := st.round_num + 1,
      score_history := st.score_history ++ [entry] }

/-- Reason the while loop of main stops (src/main.py lines 142-152). -/
inductive StopReason where
  | cleared
  | target_reached
  | rollback_limit
deriving DecidableEq, Repr

/-- The three break checks at the top of the while loop, in source order
(src/main.py lines 142-152). -/
def checkTermination (target : ℚ) (maxRb : Nat) (st : SearchState) :
    Option StopReason :=
  if st.current_fake_sentences = [] then some .cleared
  else if st.previous_score ≤ target then some .target_reached
  else if maxRb ≤ st.consecutive_rollbacks then some .rollback_limit
  else none

/-- Scripted oracle responses for one round: the candidate texts, their
evaluation results, and the re-evaluation used if the round rolls back. -/
structure RoundInput where
  cands : List String
  results : List AggregateResult
  recheck : AggregateResult
deriving Repr

/-- The while loop of main (src/main.py lines 137-343), driven by a script
of per-round oracle responses; returns the state at exit and the stop
reason (none when the script ran out while the loop would continue). -/
def runLoop (target : ℚ) (maxRb : Nat) :
    List RoundInput → SearchState → SearchState × Option StopReason
  | [], st => (st, checkTermination target maxRb st)
  | inp :: rest, st =>
    match checkTermination target maxRb st with
    | some r => (st, some r)
    | none => runLoop target maxRb rest (roundStep st inp.cands inp.results inp.recheck)

/-- The record main exposes at termination (src/main.py lines 345-354):
the final output is best_ever_text and best_ever_score, not the most
recently attempted candidate. -/
structure FinalResult where
  final_text : String
  final_score : ℚ
  final_round : Nat
deriving DecidableEq, Repr

/-- Projection of the terminal state to the externally visible result. -/
def finalResult (st : SearchState) : FinalResult :=
  ⟨st.best_ever_text, st.best_ever_score, st.best_ever_round⟩

lemma drop_cons_lt {l : List ℚ} {i : Nat} {s : ℚ} {rest : List ℚ}
    (h : l.drop i = s :: rest) : i < l.length := by
  have h2 := congrArg List.length h
  simp only [List.length_drop, List.length_cons] at h2
  omega

lemma drop_cons_getD {l : List ℚ} {i : Nat} {s : ℚ} {rest : List ℚ}
    (h : l.drop i = s :: rest) : l.getD i 0 = s := by
  have h2 := congrArg (fun t => t[0]?) h
  simp only [List.getElem?_drop] at h2
  simp only [List.getD_eq_getElem?_getD]
  simp at h2
  simp [h2]

lemma drop_cons_tail {l : List ℚ} {i : Nat} {s : ℚ} {rest : List ℚ}
    (h : l.drop i = s :: rest) : rest = l.drop (i + 1) := by
  have h2 := congrArg List.tail h
  simpa [List.tail_drop] using h2.symm

lemma bestIdxGo_spec (S : List ℚ) :
    ∀ (rest : List ℚ) (bi i : Nat), i ≤ S.length → rest = S.drop i → bi < i →
      (∀ j, j < i → S.getD bi 0 ≤ S.getD j 0) →
      (∀ j, j < bi → S.getD bi 0 < S.getD j 0) →
      bestIdxGo rest bi (S.getD bi 0) i < S.length ∧
        (∀ j, j < S.length → S.getD (bestIdxGo rest bi (S.getD bi 0) i) 0 ≤ S.getD j 0) ∧
        (∀ j, j < bestIdxGo rest bi (S.getD bi 0) i →
          S.getD (bestIdxGo rest bi (S.getD bi 0) i) 0 < S.getD j 0) := by
  intro rest
  induction rest generalizing S with
  | nil =>
    intro bi i hi hdrop hbi hle hlt
    have hlen : S.length ≤ i := by
      have h2 := congrArg List.length hdrop
      simp only [List.length_drop, List.length_nil] at h2
      omega
    have hieq : i = S.length := Nat.le_antisymm hi hlen
    subst hieq
    exact ⟨Nat.lt_of_lt_of_le hbi hi, fun j hj => hle j hj, hlt⟩
  | cons s rest2 ih =>
    intro bi i hi hdrop hbi hle hlt
    have hil : i < S.length := drop_cons_lt hdrop.symm
    have hs : S.getD i 0 = s := drop_cons_getD hdrop.symm
    have htail : rest2 = S.drop (i + 1) := drop_cons_tail hdrop.symm
    show bestIdxGo (s :: rest2) bi (S.getD bi 0) i < S.length ∧ _
    by_cases hcmp : s < S.getD bi 0
    · have hstep : bestIdxGo (s :: rest2) bi (S.getD bi 0) i
          = bestIdxGo rest2 i s (i + 1) := by
        rw [show bestIdxGo (s :: rest2) bi (S.getD bi 0) i
            = if s < S.getD bi 0 then bestIdxGo rest2 i s (i + 1)
              else bestIdxGo rest2 bi (S.getD bi 0) (i + 1) from rfl, if_pos hcmp]
      rw [hstep, ← hs]
      exact ih S i (i + 1) hil htail (Nat.lt_succ_self i)
        (fun j hj => by
          rcases Nat.lt_succ_iff_lt_or_eq.mp hj with hj' | hj'
          · rw [hs]
            exact le_of_lt (lt_of_lt_of_le hcmp (hle j hj'))
          · subst hj'; exact le_refl _)
        (fun j hj => by
          rw [hs]
          exact lt_of_lt_of_le hcmp (hle j hj))
    · have hstep : bestIdxGo (s :: rest2) bi (S.getD bi 0) i
          = bestIdxGo rest2 bi (S.getD bi 0) (i + 1) := by
        rw [show bestIdxGo (s :: rest2) bi (S.getD bi 0) i
            = if s < S.getD bi 0 then bestIdxGo rest2 i s (i + 1)
              else bestIdxGo rest2 bi (S.getD bi 0) (i + 1) from rfl, if_neg hcmp]
      rw [hstep]
      exact ih S bi (i + 1) hil htail (Nat.lt_succ_of_lt hbi)
        (fun j hj => by
          rcases Nat.lt_succ_iff_lt_or_eq.mp hj with hj' | hj'
          · exact hle j hj'
          · subst hj'
            rw [hs]
            exact le_of_not_lt hcmp)
        hlt

lemma bestIdx_spec (S : List ℚ) (hne : S ≠ []) :
    bestIdx S < S.length ∧
      (∀ j, j < S.length → S.getD (bestIdx S) 0 ≤ S.getD j 0) ∧
      (∀ j, j < bestIdx S → S.getD (bestIdx S) 0 < S.getD j 0) := by
  obtain ⟨s, rest, rfl⟩ := List.exists_cons_of_ne_nil hne
  have h0 : (s :: rest).getD 0 0 = s := rfl
  have h := bestIdxGo_spec (s :: rest) rest 0 1
    (by simp) (by simp) (Nat.zero_lt_one)
    (fun j hj => by
      have : j = 0 := by omega
      subst this
      exact le_refl _)
    (fun j hj => by omega)
  rw [h0] at h
  exact h

lemma scores_getD (results : List AggregateResult) (i : Nat) :
    (results.map AggregateResult.score).getD i 0
      = (results.getD i defaultAggregate).score := by
  show (results.map AggregateResult.score).getD i (AggregateResult.score defaultAggregate)
      = AggregateResult.score (results.getD i defaultAggregate)
  exact List.getD_map results defaultAggregate AggregateResult.score

/-- C4: every executed round selects the candidate whose overall score is
minimal, ties broken by the lowest candidate index, and the round is
ACCEPTED (best_ever and current state advance to that candidate, the
rollback counter resets and the failure narrative clears) exactly when
that score is strictly lower than best_ever_score. -/
theorem roundStep_select_min_accept_iff (st : SearchState)
    (cands : List String) (results : List AggregateResult)
    (recheck : AggregateResult) (hne : results ≠ [])
    (hlen : cands.length = results.length) :
    bestIdx (results.map AggregateResult.score) < results.length ∧
    (∀ j, j < results.length →
      (results.getD (bestIdx (results.map AggregateResult.score)) defaultAggregate).score
        ≤ (results.getD j defaultAggregate).score) ∧
    (∀ j, j < bestIdx (results.map AggregateResult.score) →
      (results.getD (bestIdx (results.map AggregateResult.score)) defaultAggregate).score
        < (results.getD j defaultAggregate).score) ∧
    ((results.getD (bestIdx (results.map AggregateResult.score)) defaultAggregate).score
        < st.best_ever_score ↔
      roundStep st cands results recheck = { st with
        best_ever_text := cands.getD (bestIdx (results.map AggregateResult.score)) "",
        best_ever_score :=
          (results.getD (bestIdx (results.map AggregateResult.score)) defaultAggregate).score,
        best_ever_round := st.round_num + 1,
        consecutive_rollbacks := 0,
        failure_history := "",
        current_text := cands.getD (bestIdx (results.map AggregateResult.score)) "",
        previous_score :=
          (results.getD (bestIdx (results.map AggregateResult.score)) defaultAggregate).score,
        current_fake_sentences :=
          (results.getD (bestIdx (results.map AggregateResult.score)) defaultAggregate).fake_sentences,
        round_num := st.round_num + 1,
        score_history := st.score_history ++ [⟨st.round_num + 1,
          (results.getD (bestIdx (results.map AggregateResult.score)) defaultAggregate).score,
          decide ((results.getD (bestIdx (results.map AggregateResult.score)) defaultAggregate).score
            < st.best_ever_score),
          decide (st.best_ever_score ≤
            (results.getD (bestIdx (results.map AggregateResult.score)) defaultAggregate).score)⟩] }) := by
  have hmne : results.map AggregateResult.score ≠ [] := by
    intro hm
    exact hne (List.map_eq_nil_iff.mp hm)
  have hspec := bestIdx_spec (results.map AggregateResult.score) hmne
  rw [List.length_map] at hspec
  simp only [scores_getD] at hspec
  refine ⟨hspec.1, hspec.2.1, hspec.2.2, ?_, ?_⟩
  · intro h
    simp only [roundStep]
    rw [if_pos h]
  · intro heq
    by_contra h
    have hcr : (roundStep st cands results recheck).consecutive_rollbacks
        = st.consecutive_rollbacks + 1 := by
      simp only [roundStep]
      rw [if_neg h]
    rw [heq] at hcr
    simp at hcr

/-- Concrete accepted-round state for the C4 witness. -/
def stAcc : SearchState := ⟨"cur", 60, ["f1"], "best", 20, 1, 1, "old", 3, []⟩

/-- Concrete candidate results with scores [10, 40, 5, 50] for the C4
witness. -/
def resultsAcc : List AggregateResult :=
  [⟨10, [], "a", []⟩, ⟨40, [], "b", []⟩, ⟨5, ["x"], "c", []⟩, ⟨50, [], "d", []⟩]

/-- Witness for C4: scripted scores [10, 40, 5, 50] with best_ever_score
20 select the index-2 candidate (score 5) and the round is accepted,
resetting consecutive_rollbacks to 0. -/
theorem roundStep_select_min_accept_iff_witness :
    roundStep stAcc ["a", "b", "c", "d"] resultsAcc defaultAggregate
      = { stAcc with
          best_ever_text := "c", best_ever_score := 5, best_ever_round := 4,
          consecutive_rollbacks := 0, failure_history := "",
          current_text := "c", previous_score := 5,
          current_fake_sentences := ["x"], round_num := 4,
          score_history := [⟨4, 5, true, false⟩] } := by
  have h := (roundStep_select_min_accept_iff stAcc ["a", "b", "c", "d"] resultsAcc
    defaultAggregate (by simp [resultsAcc]) (by simp [resultsAcc])).2.2.2
  have hb : bestIdx (resultsAcc.map AggregateResult.score) = 2 := by
    norm_num [resultsAcc, bestIdx, bestIdxGo]
  have hcond : (resultsAcc.getD (bestIdx (resultsAcc.map AggregateResult.score))
      defaultAggregate).score < stAcc.best_ever_score := by
    rw [hb]
    norm_num [resultsAcc, stAcc, List.getD]
  rw [h.mp hcond, hb]
  simp only [resultsAcc, stAcc, List.getD]
  norm_num [SearchState.mk.injEq, RoundEntry.mk.injEq, decide_eq_true_eq,
    decide_eq_false_iff_not]

lemma failureNarrative_ne_empty (round_num : Nat) (best_result : AggregateResult)
    (best_ever_score : ℚ) :
    failureNarrative round_num best_result best_ever_score ≠ "" := by
  unfold failureNarrative
  intro h
  have hl := congrArg String.length h
  simp only [String.length_append] at hl
  have h2 : (0:Nat) < "IMPORTANT: Previous round ".length := by decide
  have h3 : "".length = 0 := by decide
  omega

/-- C5: whenever the selected score is not strictly lower than
best_ever_score the round rolls back: the counter increments by exactly 1,
current_text restores to best_ever_text exactly, the flagged set is taken
from the fresh re-evaluation of the restored text, and a nonempty failure
narrative is set; and a state at the rollback limit stops the loop with
reason rollback_limit and the returned final text is best_ever_text. -/
theorem roundStep_rollback_loop_returns_best :
    (∀ (st : SearchState) (cands : List String) (results : List AggregateResult)
        (recheck : AggregateResult), results ≠ [] → cands.length = results.length →
      ¬ (results.getD (bestIdx (results.map AggregateResult.score)) defaultAggregate).score
          < st.best_ever_score →
      roundStep st cands results recheck = { st with
        consecutive_rollbacks := st.consecutive_rollbacks + 1,
        current_text := st.best_ever_text,
        previous_score := st.best_ever_score,
        current_fake_sentences := recheck.fake_sentences,
        failure_history := failureNarrative (st.round_num + 1)
          (results.getD (bestIdx (results.map AggregateResult.score)) defaultAggregate)
          st.best_ever_score,
        round_num := st.round_num + 1,
        score_history := st.score_history ++ [⟨st.round_num + 1,
          (results.getD (bestIdx (results.map AggregateResult.score)) defaultAggregate).score,
          decide ((results.getD (bestIdx (results.map AggregateResult.score)) defaultAggregate).score
            < st.best_ever_score),
          decide (st.best_ever_score ≤
            (results.getD (bestIdx (results.map AggregateResult.score)) defaultAggregate).score)⟩] } ∧
      failureNarrative (st.round_num + 1)
        (results.getD (bestIdx (results.map AggregateResult.score)) defaultAggregate)
        st.best_ever_score ≠ "") ∧
    (∀ (target : ℚ) (maxRb : Nat) (script : List RoundInput) (st : SearchState),
      st.current_fake_sentences ≠ [] → ¬ st.previous_score ≤ target →
      maxRb ≤ st.consecutive_rollbacks →
      runLoop target maxRb script st = (st, some .rollback_limit) ∧
      (finalResult st).final_text = st.best_ever_text) := by
  constructor
  · intro st cands results recheck hne hlen h
    constructor
    · simp only [roundStep]
      rw [if_neg h]
    · exact failureNarrative_ne_empty _ _ _
  · intro target maxRb script st h1 h2 h3
    have hterm : checkTermination target maxRb st = some .rollback_limit := by
      simp [checkTermination, h1, h2, h3]
    constructor
    · cases script with
      | nil => simp [runLoop, hterm]
      | cons inp rest => simp [runLoop, hterm]
    · rfl

/-- Concrete pre-rollback state for the C5 witness: best_ever_score 20. -/
def stRb : SearchState := ⟨"cur", 22, ["f"], "best", 20, 1, 0, "", 1, []⟩

/-- Single candidate with score 25 for the C5 witness. -/
def resultsRb : List AggregateResult := [⟨25, ["g"], "x", []⟩]

/-- Fresh re-evaluation of the restored text for the C5 witness. -/
def recheckRb : AggregateResult := ⟨21, ["h"], "best", []⟩

/-- State that has reached the rollback limit for the C5 witness. -/
def stLim : SearchState := ⟨"cur", 50, ["f"], "BEST", 20, 1, 3, "n", 5, []⟩

/-- Witness for C5: a single candidate scoring 25 against best_ever 20
rolls back (counter 0 → 1, text restored, flagged set from the fresh
re-check, nonempty narrative), and at the rollback limit the loop stops
with the best-ever text as final output. -/
theorem roundStep_rollback_loop_returns_best_witness :
    (roundStep stRb ["x"] resultsRb recheckRb).consecutive_rollbacks = 1 ∧
    (roundStep stRb ["x"] resultsRb recheckRb).current_text = "best" ∧
    (roundStep stRb ["x"] resultsRb recheckRb).current_fake_sentences = ["h"] ∧
    (roundStep stRb ["x"] resultsRb recheckRb).failure_history ≠ "" ∧
    runLoop TARGET_SCORE MAX_ROLLBACKS [] stLim = (stLim, some .rollback_limit) ∧
    (finalResult stLim).final_text = "BEST" := by
  obtain ⟨hstep, hnarr⟩ := roundStep_rollback_loop_returns_best.1 stRb ["x"]
    resultsRb recheckRb (by simp [resultsRb]) (by simp [resultsRb])
    (by norm_num [resultsRb, stRb, bestIdx, bestIdxGo, List.getD])
  obtain ⟨hloop, hfin⟩ := roundStep_rollback_loop_returns_best.2 TARGET_SCORE
    MAX_ROLLBACKS [] stLim (by simp [stLim])
    (by norm_num [stLim, TARGET_SCORE]) (by norm_num [stLim, MAX_ROLLBACKS])
  rw [hstep]
  exact ⟨by simp [stRb], by simp [stRb], by simp [recheckRb],
    by simpa using hnarr, hloop, by simpa [stLim] using hfin⟩

/-- C6: at the start of every round the loop evaluates its stop conditions
in priority order (empty flagged set → cleared, then score at or below
target → target_reached, then rollback counter at the limit →
rollback_limit, else continue), and a state whose flagged set is empty
stops the loop immediately, unchanged, with zero rounds executed. -/
theorem checkTermination_priority_order :
    (∀ (target : ℚ) (maxRb : Nat) (st : SearchState),
      st.current_fake_sentences = [] →
      checkTermination target maxRb st = some .cleared) ∧
    (∀ (target : ℚ) (maxRb : Nat) (st : SearchState),
      st.current_fake_sentences ≠ [] → st.previous_score ≤ target →
      checkTermination target maxRb st = some .target_reached) ∧
    (∀ (target : ℚ) (maxRb : Nat) (st : SearchState),
      st.current_fake_sentences ≠ [] → ¬ st.previous_score ≤ target →
      maxRb ≤ st.consecutive_rollbacks →
      checkTermination target maxRb st = some .rollback_limit) ∧
    (∀ (target : ℚ) (maxRb : Nat) (st : SearchState),
      st.current_fake_sentences ≠ [] → ¬ st.previous_score ≤ target →
      st.consecutive_rollbacks < maxRb →
      checkTermination target maxRb st = none) ∧
    (∀ (target : ℚ) (maxRb : Nat) (script : List RoundInput) (st : SearchState),
      st.current_fake_sentences = [] →
      runLoop target maxRb script st = (st, some .cleared)) := by
  refine ⟨?_, ?_, ?_, ?_, ?_⟩
  · intro target maxRb st h
    simp [checkTermination, h]
  · intro target maxRb st h1 h2
    simp [checkTermination, h1, h2]
  · intro target maxRb st h1 h2 h3
    simp [checkTermination, h1, h2, h3]
  · intro target maxRb st h1 h2 h3
    simp [checkTermination, h1, h2, Nat.not_le.mpr h3]
  · intro target maxRb script st h
    have hterm : checkTermination target maxRb st = some .cleared := by
      simp [checkTermination, h]
    cases script with
    | nil => simp [runLoop, hterm]
    | cons inp rest => simp [runLoop, hterm]

/-- State with no flagged sentences (but score above target) for the C6
witness. -/
def stClr : SearchState := ⟨"t", 80, [], "t", 80, 0, 0, "", 0, []⟩

/-- Witness for C6: a state with zero flagged segments (even though its
score 80 exceeds the target 30) terminates immediately in cleared with
the state unchanged, i.e. zero rounds executed. -/
theorem checkTermination_priority_order_witness :
    runLoop TARGET_SCORE MAX_ROLLBACKS [] stClr = (stClr, some .cleared) :=
  checkTermination_priority_order.2.2.2.2 TARGET_SCORE MAX_ROLLBACKS [] stClr rfl

/-- What one attempt of the zerogpt retry loop observes
(src/aichecker.py lines 53-106): an HTTP 429 status, a malformed response
body (falsy data or missing data key, line 77), a caught exception
(aiohttp.ClientError, asyncio.TimeoutError or KeyError, line 100), or a
good response carrying fakePercentage, the AI sentence list h and the
human sentence list. -/
inductive ZOutcome where
  | status429
  | malformed
  | exc
  | good (fakePercentage : ℚ) (aiSentences : List String) (humanSentences : List String)

/-- Predicate for the three retried failure kinds of one zerogpt
attempt. -/
def zIsFailure (o : ZOutcome) : Prop :=
  o = .status429 ∨ o = .malformed ∨ o = .exc

/-- The retry loop of AIChecker.zerogpt (src/aichecker.py lines 50-108) as
a function of the outcome of each attempt; returns the awaited backoff
delays (base_delay = 1, delay = base_delay * 2 ** attempt) and the final
provider result.  All three failure kinds run the same
retry-if-attempt-below-four logic; a good response returns success with
the stripped AI sentences scored 100 and human sentences scored 0. -/
def zerogptGo (outcomes : Nat → ZOutcome) : Nat → Nat → List ℚ × ProviderResult
  | _, 0 => ([], .failed)
  | attempt, fuel + 1 =>
    match outcomes attempt with
    | .good fp ai hu =>
      ([], .success "zerogpt" fp
        (ai.map (fun s => (s.trim, (100:ℚ))) ++ hu.map (fun s => (s.trim, (0:ℚ)))))
    | .status429 =>
      if attempt < 5 - 1 then
        let r := zerogptGo outcomes (attempt + 1) fuel
        (((1:ℚ) * 2 ^ attempt) :: r.1, r.2)
      else ([], .failed)
    | .malformed =>
      if attempt < 5 - 1 then
        let r := zerogptGo outcomes (attempt + 1) fuel
        (((1:ℚ) * 2 ^ attempt) :: r.1, r.2)
      else ([], .failed)
    | .exc =>
      if attempt < 5 - 1 then
        let r := zerogptGo outcomes (attempt + 1) fuel
        (((1:ℚ) * 2 ^ attempt) :: r.1, r.2)
      else ([], .failed)

/-- AIChecker.zerogpt: the loop starts at attempt 0 with max_retries=5. -/
def zerogpt (outcomes : Nat → ZOutcome) : List ℚ × ProviderResult :=
  zerogptGo outcomes 0 5

lemma range_pow_succ (attempt m : Nat) :
    (List.range (m + 1)).map (fun i => (2:ℚ) ^ (attempt + i))
      = (2:ℚ) ^ attempt :: (List.range m).map (fun i => (2:ℚ) ^ (attempt + 1 + i)) := by
  rw [List.range_succ_eq_map, List.map_cons, List.map_map]
  refine congrArg₂ _ (by norm_num) ?_
  refine List.map_congr_left ?_
  intro x hx
  show (2:ℚ) ^ (attempt + (x + 1)) = (2:ℚ) ^ (attempt + 1 + x)
  have he : attempt + (x + 1) = attempt + 1 + x := by omega
  rw [he]

lemma zerogptGo_spec (outcomes : Nat → ZOutcome) :
    ∀ (fuel attempt : Nat), attempt + fuel = 5 →
      ∀ k, k < fuel →
        (∀ i, attempt ≤ i → i < attempt + k → zIsFailure (outcomes i)) →
        ∀ fp ai hu, outcomes (attempt + k) = .good fp ai hu →
          zerogptGo outcomes attempt fuel
            = ((List.range k).map (fun i => (1:ℚ) * 2 ^ (attempt + i)),
               .success "zerogpt" fp
                 (ai.map (fun s => (s.trim, (100:ℚ)))
                   ++ hu.map (fun s => (s.trim, (0:ℚ))))) := by
  intro fuel
  induction fuel with
  | zero =>
    intro attempt h5 k hk
    exact absurd hk (Nat.not_lt_zero k)
  | succ f ih =>
    intro attempt h5 k hk hfail fp ai hu hgood
    cases k with
    | zero =>
      rw [Nat.add_zero] at hgood
      simp [zerogptGo, hgood]
    | succ k2 =>
      have hfa : zIsFailure (outcomes attempt) := hfail attempt (le_refl _) (by omega)
      have hrec := ih (attempt + 1) (by omega) k2 (by omega)
        (fun i hi1 hi2 => hfail i (by omega) (by omega))
        fp ai hu (by rw [show attempt + 1 + k2 = attempt + (k2 + 1) from by omega]; exact hgood)
      rcases hfa with hf | hf | hf <;>
        (simp [zerogptGo, hf, if_pos (show attempt < 5 - 1 from by omega), hrec]
         exact (range_pow_succ attempt k2).symm)

lemma zerogptGo_exhaust (outcomes : Nat → ZOutcome) :
    ∀ (fuel attempt : Nat), attempt + fuel = 5 → 1 ≤ fuel →
      (∀ i, attempt ≤ i → i < 5 → zIsFailure (outcomes i)) →
      zerogptGo outcomes attempt fuel
        = ((List.range (fuel - 1)).map (fun i => (1:ℚ) * 2 ^ (attempt + i)), .failed) := by
  intro fuel
  induction fuel with
  | zero => intro attempt h5 h1; omega
  | succ f ih =>
    intro attempt h5 hf1 hfail
    have hfa : zIsFailure (outcomes attempt) := hfail attempt (le_refl _) (by omega)
    cases Nat.eq_zero_or_pos f with
    | inl hf0 =>
      subst hf0
      have ha : attempt = 4 := by omega
      subst ha
      rcases hfa with hf | hf | hf <;> simp [zerogptGo, hf]
    | inr hfpos =>
      have hrec := ih (attempt + 1) (by omega) hfpos
        (fun i hi1 hi2 => hfail i (by omega) hi2)
      have hs : f = (f - 1) + 1 := by omega
      rcases hfa with hf | hf | hf <;>
        (simp [zerogptGo, hf, if_pos (show attempt < 5 - 1 from by omega), hrec]
         rw [hs]
         exact (range_pow_succ attempt (f - 1)).symm)

/-- C2: in the provider retry loop (zerogpt), a malformed response body is
retried against the same 5-attempt budget and the same exponential
schedule (base_delay * 2 ** attempt) as a 429 rate limit or a caught
connection/timeout exception, rather than ending the call on its first
occurrence: any mix of the three failure kinds on the first k attempts
followed by a good response on attempt k (k < 5) yields success with
delays 2^0 .. 2^(k-1); and five failures of any mix return the failed
sentinel after four delays. -/
theorem zerogpt_malformed_retried :
    (∀ (outcomes : Nat → ZOutcome) (k : Nat) (fp : ℚ) (ai hu : List String),
      k < 5 → (∀ i, i < k → zIsFailure (outcomes i)) →
      outcomes k = .good fp ai hu →
      zerogpt outcomes = ((List.range k).map (fun i => (1:ℚ) * 2 ^ i),
        .success "zerogpt" fp (ai.map (fun s => (s.trim, (100:ℚ)))
          ++ hu.map (fun s => (s.trim, (0:ℚ)))))) ∧
    (∀ (outcomes : Nat → ZOutcome), (∀ i, i < 5 → zIsFailure (outcomes i)) →
      zerogpt outcomes = ((List.range 4).map (fun i => (1:ℚ) * 2 ^ i), .failed)) := by
  constructor
  · intro outcomes k fp ai hu hk hfail hgood
    have h := zerogptGo_spec outcomes 5 0 (by omega) k hk
      (fun i hi1 hi2 => hfail i (by omega)) fp ai hu (by simpa using hgood)
    simpa using h
  · intro outcomes hfail
    have h := zerogptGo_exhaust outcomes 5 0 (by omega) (by omega)
      (fun i hi1 hi2 => hfail i hi2)
    simpa using h

/-- Attempt outcomes for the C2 witness: a malformed response on the first
attempt, then a good response. -/
def outcomesZ : Nat → ZOutcome :=
  fun i => if i = 0 then .malformed else .good 50 ["a"] ["b"]

/-- Witness for C2: the malformed first attempt is retried after the
scheduled delay 2^0 and the second attempt returns success; nothing is
raised and the call does not fail. -/
theorem zerogpt_malformed_retried_witness :
    zerogpt outcomesZ = ([(1:ℚ) * 2 ^ 0],
      .success "zerogpt" 50 [("a".trim, 100), ("b".trim, 0)]) := by
  have h := zerogpt_malformed_retried.1 outcomesZ 1 50 ["a"] ["b"] (by omega)
    (fun i hi => by
      have hi0 : i = 0 := by omega
      subst hi0
      exact Or.inr (Or.inl rfl))
    (by simp [outcomesZ])
  simpa [List.range_succ] using h

/-- What one attempt of api_call_with_backoff observes (src/main.py lines
24-41): the coroutine returns a value, raises RateLimitError, raises
APIConnectionError, or raises another APIError. -/
inductive ApiOutcome (α : Type) where
  | ok (v : α)
  | rateLimited
  | connError
  | apiError

/-- The exception classes api_call_with_backoff can re-raise. -/
inductive ApiErrKind where
  | rateLimit
  | conn
  | api
deriving DecidableEq, Repr

/-- Final outcome of an api_call_with_backoff call: a returned value, a
re-raised exception, or the implicit None when the loop is entered with a
zero budget (never reached with the default max_retries=5). -/
inductive CallResult (α : Type) where
  | success (v : α)
  | raised (e : ApiErrKind)
  | noResult

/-- The retry loop of api_call_with_backoff (src/main.py lines 22-41) as a
function of per-attempt outcomes and the random.uniform(0, 1) draw of each
attempt: rate limits wait 2 ** attempt + jitter, connection errors wait
2 ** attempt with no jitter, any other APIError is re-raised immediately,
and the last attempt re-raises instead of waiting. -/
def apiCallGo {α : Type} (outcomes : Nat → ApiOutcome α) (jitter : Nat → ℚ)
    (maxRetries : Nat) : Nat → Nat → List ℚ × CallResult α
  | _, 0 => ([], .noResult)
  | attempt, fuel + 1 =>
    match outcomes attempt with
    | .ok v => ([], .success v)
    | .rateLimited =>
      if attempt = maxRetries - 1 then ([], .raised .rateLimit)
      else
        let r := apiCallGo outcomes jitter maxRetries (attempt + 1) fuel
        (((2:ℚ) ^ attempt + jitter attempt) :: r.1, r.2)
    | .connError =>
      if attempt = maxRetries - 1 then ([], .raised .conn)
      else
        let r := apiCallGo outcomes jitter maxRetries (attempt + 1) fuel
        (((2:ℚ) ^ attempt) :: r.1, r.2)
    | .apiError => ([], .raised .api)

/-- api_call_with_backoff (src/main.py lines 22-41): the loop runs
attempts 0 .. max_retries - 1. -/
def api_call_with_backoff {α : Type} (outcomes : Nat → ApiOutcome α)
    (jitter : Nat → ℚ) (maxRetries : Nat) : List ℚ × CallResult α :=
  apiCallGo outcomes jitter maxRetries 0 maxRetries

lemma apiCallGo_conn {α : Type} (v : α) (outcomes : Nat → ApiOutcome α)
    (jitter : Nat → ℚ) :
    ∀ (fuel attempt : Nat), attempt + fuel = 5 →
      ∀ k, k < fuel →
        (∀ i, attempt ≤ i → i < attempt + k → outcomes i = .connError) →
        outcomes (attempt + k) = .ok v →
        apiCallGo outcomes jitter 5 attempt fuel
          = ((List.range k).map (fun i => (2:ℚ) ^ (attempt + i)), .success v) := by
  intro fuel
  induction fuel with
  | zero =>
    intro attempt h5 k hk
    exact absurd hk (Nat.not_lt_zero k)
  | succ f ih =>
    intro attempt h5 k hk hfail hgood
    cases k with
    | zero =>
      rw [Nat.add_zero] at hgood
      simp [apiCallGo, hgood]
    | succ k2 =>
      have hfa : outcomes attempt = .connError := hfail attempt (le_refl _) (by omega)
      have hrec := ih (attempt + 1) (by omega) k2 (by omega)
        (fun i hi1 hi2 => hfail i (by omega) (by omega))
        (by rw [show attempt + 1 + k2 = attempt + (k2 + 1) from by omega]; exact hgood)
      simp [apiCallGo, hfa, if_neg (show ¬ attempt = 5 - 1 from by omega), hrec]
      exact (range_pow_succ attempt k2).symm

/-- C7: the call executor retries rate-limited and connection failures on
the exponential schedule 2 ** attempt, adds the bounded random offset only
to rate-limit delays, and when attempts 1-4 are rate-limited and attempt 5
succeeds it awaits exactly 4 strictly increasing backoff delays and
returns the successful value with no exception; connection failures use
the bare 2 ** attempt schedule with no jitter term. -/
theorem api_call_with_backoff_schedule :
    (∀ (α : Type) (v : α) (outcomes : Nat → ApiOutcome α) (jitter : Nat → ℚ),
      (∀ i, i < 4 → outcomes i = .rateLimited) → outcomes 4 = .ok v →
      (∀ i, 0 ≤ jitter i ∧ jitter i < 1) →
      api_call_with_backoff outcomes jitter 5
        = ([2 ^ 0 + jitter 0, 2 ^ 1 + jitter 1, 2 ^ 2 + jitter 2, 2 ^ 3 + jitter 3],
           .success v) ∧
      List.Chain' (· < ·)
        [(2:ℚ) ^ 0 + jitter 0, 2 ^ 1 + jitter 1, 2 ^ 2 + jitter 2, 2 ^ 3 + jitter 3]) ∧
    (∀ (α : Type) (v : α) (outcomes : Nat → ApiOutcome α) (jitter : Nat → ℚ) (k : Nat),
      k < 5 → (∀ i, i < k → outcomes i = .connError) → outcomes k = .ok v →
      api_call_with_backoff outcomes jitter 5
        = ((List.range k).map (fun i => (2:ℚ) ^ i), .success v)) := by
  constructor
  · intro α v outcomes jitter hrl hok hj
    have h0 := hrl 0 (by omega)
    have h1 := hrl 1 (by omega)
    have h2 := hrl 2 (by omega)
    have h3 := hrl 3 (by omega)
    constructor
    · simp [api_call_with_backoff, apiCallGo, h0, h1, h2, h3, hok]
    · simp only [List.chain'_cons, List.chain'_singleton, and_true]
      refine ⟨?_, ?_, ?_⟩ <;>
        nlinarith [(hj 0).1, (hj 0).2, (hj 1).1, (hj 1).2, (hj 2).1, (hj 2).2,
          (hj 3).1, (hj 3).2]
  · intro α v outcomes jitter k hk hconn hok
    have h := apiCallGo_conn v outcomes jitter 5 0 (by omega) k hk
      (fun i hi1 hi2 => hconn i (by omega)) (by simpa using hok)
    simpa using h

/-- Attempt outcomes for the C7 witness: rate-limited on attempts 1-4,
success on attempt 5. -/
def outcomesRL : Nat → ApiOutcome Nat := fun i => if i < 4 then .rateLimited else .ok 42

/-- Constant jitter draw 1/2 for the C7 witness. -/
def jitterHalf : Nat → ℚ := fun _ => 1 / 2

/-- Witness for C7: rate limits on attempts 1-4 and success on attempt 5
produce the four strictly increasing delays 3/2, 5/2, 9/2, 17/2 and the
value 42 is returned with nothing raised. -/
theorem api_call_with_backoff_schedule_witness :
    api_call_with_backoff outcomesRL jitterHalf 5
      = ([3 / 2, 5 / 2, 9 / 2, 17 / 2], .success 42) ∧
    List.Chain' (· < ·) [(3:ℚ) / 2, 5 / 2, 9 / 2, 17 / 2] := by
  obtain ⟨h1, h2⟩ := api_call_with_backoff_schedule.1 Nat 42 outcomesRL jitterHalf
    (fun i hi => by simp [outcomesRL, hi])
    (by simp [outcomesRL])
    (fun i => by norm_num [jitterHalf])
  constructor
  · norm_num [jitterHalf] at h1 ⊢
    exact h1
  · norm_num [List.chain'_cons, List.chain'_singleton]

end Humanizer
